import Mathlib

/-!
Verification of the environment-merge and deployment-strategy core of
src/nodejs/src/services/solutionInstall.js.

JavaScript strings are modelled as Lean strings (wrappers around a list
of characters); the string operations used by the source are defined on
the underlying character lists so that standard list lemmas apply.
JavaScript plain objects used as string-keyed maps are modelled as
insertion-ordered association lists together with the ECMAScript
own-property-key ordering (integer-like keys first, in ascending
numeric order, then string keys in property-creation order).

External commands (git, docker, wget, docker-compose) are opaque: an
oracle decides whether each such command exits with code 0.  Commands
whose effect the claims depend on (cp, rm, the find/cp bulk copy) are
given their filesystem semantics directly.  Every command executed is
also appended to a trace, so that claims about which commands are
attempted can be stated.
-/

namespace SolutionInstall

/-! ### JavaScript string primitives -/

/-- The whitespace characters recognised by the trim method of
JavaScript strings. -/
def jsWhitespace (c : Char) : Bool :=
  c = ' ' || c = '\t' || c = '\n' || c = '\r' ||
  c = '\x0b' || c = '\x0c' || c = '\u00a0' || c = '\ufeff' ||
  c = '\u1680' || ('\u2000' ≤ c && c ≤ '\u200a') ||
  c = '\u2028' || c = '\u2029' || c = '\u202f' || c = '\u205f' || c = '\u3000'

/-- Trimming on the underlying character list. -/
def trimChars (l : List Char) : List Char :=
  (l.dropWhile jsWhitespace).rdropWhile jsWhitespace

/-- JavaScript str.trim(). -/
def jsTrim (s : String) : String := ⟨trimChars s.data⟩

/-- JavaScript str.split(sep) for a single-character separator. -/
def jsSplit (c : Char) (s : String) : List String :=
  (s.data.splitOn c).map fun l => (⟨l⟩ : String)

/-- JavaScript arr.join(sep) for a single-character separator. -/
def jsJoin (c : Char) (ls : List String) : String :=
  ⟨[c].intercalate (ls.map String.data)⟩

/-- JavaScript str.startsWith("#"): the first character is '#'. -/
def startsWithHash (s : String) : Bool :=
  match s.data with
  | [] => false
  | c :: _ => c = '#'

/-- JavaScript str.includes("="): some character is '='. -/
def includesEq (s : String) : Bool := s.data.contains '='

/-! ### JavaScript objects as string-keyed maps -/

/-- A JavaScript plain object used as a string-keyed map: an
association list in property-creation order (keys unique). -/
abbrev EnvObj := List (String × String)

/-- The keys of an object in property-creation order. -/
def keysOf (o : EnvObj) : List String := o.map Prod.fst

/-- obj.hasOwnProperty(k): key membership. -/
def hasOwn (o : EnvObj) (k : String) : Bool := (o.find? fun p => p.1 == k).isSome

/-- obj[k]: the property read of a present key. -/
def objGet (o : EnvObj) (k : String) : String :=
  ((o.find? fun p => p.1 == k).map Prod.snd).getD ""

/-- obj[k] = v on a JavaScript plain object: an existing key keeps its
position and receives the new value, a fresh key is appended.
Assigning to the key "__proto__" does not create an own property (the
assignment hits the inherited accessor and is discarded for a string
value), so such assignments are dropped. -/
def objSet (o : EnvObj) (k v : String) : EnvObj :=
  if k = "__proto__" then o
  else if hasOwn o k then o.map fun p => if p.1 = k then (k, v) else p
  else o ++ [(k, v)]

/-- The numeric reading of a nonempty all-digit character list (the
value str.toNat? computes on such strings). -/
def decimalNat? (l : List Char) : Option Nat :=
  if l.all Char.isDigit && !l.isEmpty then
    some (l.foldl (fun n c => n * 10 + (c.toNat - ('0').toNat)) 0)
  else none

/-- ECMAScript array index: a canonical decimal numeral n with
n ≤ 2^32 - 2 (no leading zeros, no sign). -/
def isArrayIndex (s : String) : Bool :=
  match decimalNat? s.data with
  | some n => n ≤ 4294967294 && toString n == s
  | none => false

/-- The numeric value by which array-index keys are ordered. -/
def keyNum (s : String) : Nat := (decimalNat? s.data).getD 0

/-- The order used on array-index entries. -/
def idxLe (p q : String × String) : Prop := keyNum p.1 ≤ keyNum q.1

instance : DecidableRel idxLe := fun p q => Nat.decLe (keyNum p.1) (keyNum q.1)

instance : IsTotal (String × String) idxLe :=
  ⟨fun p q => Nat.le_total (keyNum p.1) (keyNum q.1)⟩

instance : IsTrans (String × String) idxLe :=
  ⟨fun _ _ _ h h2 => Nat.le_trans h h2⟩

/-- Object.entries in ECMAScript own-property-key order: entries with
array-index keys first, in ascending numeric order, then the remaining
entries in property-creation order. -/
def jsEntries (o : EnvObj) : EnvObj :=
  List.insertionSort idxLe (o.filter fun p => isArrayIndex p.1)
    ++ o.filter fun p => !isArrayIndex p.1

/-- Object.keys in the same order. -/
def jsKeys (o : EnvObj) : List String := keysOf (jsEntries o)

/-! ### Parsing, merging and rendering of env files
(mergeEnvironmentFiles, source lines 42-103) -/

/-- Processing of one line of an env file (source lines 51-57): trim,
skip blank lines, comment lines and lines without '='; split on '=',
the key is the first segment trimmed, the value is the remaining
segments re-joined with '=' and trimmed. -/
def parseEnvLine (vars : EnvObj) (line : String) : EnvObj :=
  let t := jsTrim line
  if (t != "") && !startsWithHash t && includesEq t then
    match jsSplit '=' t with
    | [] => vars
    | key :: valueParts => objSet vars (jsTrim key) (jsTrim (jsJoin '=' valueParts))
  else vars

/-- Parsing of the content of an env file: content.split(newline)
processed line by line. -/
def parseEnvContent (content : String) : EnvObj :=
  (jsSplit '\n' content).foldl parseEnvLine []

/-- The merge of the two parsed maps (source lines 77-88): copy every
root variable into the result, then add each local variable whose key
the root object does not have. -/
def mergeVars (rootVars localVars : EnvObj) : EnvObj :=
  let m := (jsKeys rootVars).foldl (fun m k => objSet m k (objGet rootVars k)) []
  (jsKeys localVars).foldl
    (fun m k => if hasOwn rootVars k then m else objSet m k (objGet localVars k)) m

/-- Rendering (source lines 91-93): entries mapped to KEY=VALUE lines
and joined with newlines. -/
def renderEntries (entries : EnvObj) : String :=
  jsJoin '\n' (entries.map fun p => p.1 ++ "=" ++ p.2)

/-- The file content written by the merge, as a function of the two
parsed maps. -/
def mergeOutput (rootVars localVars : EnvObj) : String :=
  renderEntries (jsEntries (mergeVars rootVars localVars))

/-! ### Filesystem and command-execution model -/

/-- The filesystem: an association list from path to file content. -/
abbrev FS := List (String × String)

/-- Reading a file; none when the path does not exist. -/
def fsRead (fs : FS) (p : String) : Option String :=
  (fs.find? fun e => e.1 == p).map Prod.snd

/-- Deleting a single file. -/
def fsErase (fs : FS) (p : String) : FS := fs.filter fun e => e.1 != p

/-- Writing a file (creating it when absent). -/
def fsWrite (fs : FS) (p c : String) : FS := (p, c) :: fsErase fs p

/-- The observable state threaded through the install functions: the
filesystem and the list of shell commands executed so far. -/
structure World where
  fs : FS
  trace : List String
  deriving DecidableEq, Repr

/-- Outcome of one awaited step: the world after the step, plus either
the resolved value or the message of the thrown error. -/
abbrev StepResult (α : Type) := World × Except String α

/-- Sequencing of awaited steps: a thrown error aborts the remainder. -/
def sbind {α : Type} (s : StepResult Unit) (k : World → StepResult α) : StepResult α :=
  match s with
  | (w, Except.ok _) => k w
  | (w, Except.error e) => (w, Except.error e)

/-- Record an executed command in the trace. -/
def logCmd (w : World) (cmd : String) : World := { w with trace := w.trace ++ [cmd] }

/-- runCommand on an opaque external command (git, docker, wget,
docker-compose): success decided by the oracle, no filesystem effect
modelled, rejection carries the message built by runCommand. -/
def runExt (ext : String → Bool) (cmd : String) (w : World) : StepResult Unit :=
  let w := logCmd w cmd
  if ext cmd then (w, Except.ok ()) else (w, Except.error ("Command failed: " ++ cmd))

/-- runCommand on a copy command: succeeds exactly when the source
exists, writing its content to the destination. -/
def runCp (src dst : String) (w : World) : StepResult Unit :=
  let cmd := "cp " ++ src ++ " " ++ dst
  let w := logCmd w cmd
  match fsRead w.fs src with
  | some c => ({ w with fs := fsWrite w.fs dst c }, Except.ok ())
  | none => (w, Except.error ("Command failed: " ++ cmd))

/-- runCommand on rm -f: always succeeds, removing the file. -/
def runRmF (p : String) (w : World) : StepResult Unit :=
  let cmd := "rm -f " ++ p
  let w := logCmd w cmd
  ({ w with fs := fsErase w.fs p }, Except.ok ())

/-- runCommand on rm -rf: always succeeds, removing the subtree. -/
def runRmRf (p : String) (w : World) : StepResult Unit :=
  let cmd := "rm -rf " ++ p
  let w := logCmd w cmd
  ({ w with fs := w.fs.filter fun e => !(e.1 == p || (p ++ "/").data.isPrefixOf e.1.data) },
    Except.ok ())

/-- mergeEnvironmentFiles (source lines 42-103): read the two sources
(a missing file contributes no variables), merge, write the rendered
result to the output path, return the merged map.  The function throws
only if a filesystem primitive does, which the model does not
represent, so it is total here. -/
def mergeEnvironmentFiles (fs : FS) (rootEnvPath localEnvPath outputPath : String) :
    FS × EnvObj :=
  let rootVars := match fsRead fs rootEnvPath with
    | some c => parseEnvContent c
    | none => []
  let localVars := match fsRead fs localEnvPath with
    | some c => parseEnvContent c
    | none => []
  let mergedVars := mergeVars rootVars localVars
  (fsWrite fs outputPath (renderEntries (jsEntries mergedVars)), mergedVars)

/-- The merge as a step of the install functions (no shell command, so
nothing is traced). -/
def mergeEnvStep (rootEnvPath localEnvPath outputPath : String) (w : World) : World :=
  { w with fs := (mergeEnvironmentFiles w.fs rootEnvPath localEnvPath outputPath).1 }

/-! ### runCommand (source lines 16-32) -/

/-- Result of the spawned child process: the close event with its exit
code (none when the process was killed by a signal), or the error event
raised when the process could not start. -/
inductive ProcessOutcome where
  | closed (code : Option Nat)
  | spawnFailure (message : String)
  deriving DecidableEq, Repr

/-- runCommand: resolve with "success" on exit code 0; otherwise reject
with an Error whose message names only the command; reject with the
spawn error when the process could not start. -/
def runCommand (command : String) (outcome : ProcessOutcome) : Except String String :=
  match outcome with
  | ProcessOutcome.closed code =>
    if code = some 0 then Except.ok "success"
    else Except.error ("Command failed: " ++ command)
  | ProcessOutcome.spawnFailure message => Except.error message

/-! ### Repository-structure detection (source lines 142-170) -/

/-- The structure record built by detectRepoStructure. -/
structure RepoStructure where
  hasDockerCompose : Bool
  hasDockerfile : Bool
  composeFile : Option String
  deriving DecidableEq, Repr

/-- The candidate compose file names, in the priority order of source
line 151. -/
def composeFileNames : List String :=
  ["docker-compose.yml", "docker-compose.yaml", "compose.yml", "compose.yaml"]

/-- The for-loop with break of source lines 152-158; ex f tells whether
the file f exists in the repository directory. -/
def detectComposeLoop (ex : String → Bool) (files : List String)
    (s : RepoStructure) : RepoStructure :=
  match files with
  | [] => s
  | f :: rest =>
    if ex f then { s with hasDockerCompose := true, composeFile := some f }
    else detectComposeLoop ex rest s

/-- detectRepoStructure. -/
def detectRepoStructure (ex : String → Bool) : RepoStructure :=
  let s : RepoStructure :=
    { hasDockerCompose := false, hasDockerfile := false, composeFile := none }
  let s := detectComposeLoop ex composeFileNames s
  if ex "Dockerfile" then { s with hasDockerfile := true } else s

/-! ### Solution configuration -/

/-- The per-solution configuration record consumed by the installer. -/
structure SolutionConfig where
  repoUrl : String
  branchName : String
  repoName : String
  installType : String
  containerName : String
  imageName : String
  port : Nat
  additionalPorts : Option (List Nat)
  envFile : Option String
  deriving DecidableEq, Repr

/-! ### Container cleanup (source lines 177-195) -/

/-- The body of the try block of cleanupExistingContainers: remove the
main container, then stop the containers publishing each additional
port, each via runCommand, an error aborting the remaining commands. -/
def cleanupBody (ext : String → Bool) (config : SolutionConfig) (w : World) :
    StepResult Unit :=
  sbind (runExt ext ("docker rm -f " ++ config.containerName ++ " || true") w) fun w =>
    match config.additionalPorts with
    | some ports =>
      ports.foldl
        (fun acc port => sbind acc fun w =>
          runExt ext
            ("docker ps -q --filter \"publish=" ++ toString port ++
              "\" | xargs -r docker stop || true") w)
        (w, Except.ok ())
    | none => (w, Except.ok ())

/-- cleanupExistingContainers: the catch block logs and swallows any
error from the body. -/
def cleanupExistingContainers (ext : String → Bool) (config : SolutionConfig)
    (w : World) : StepResult Unit :=
  match cleanupBody ext config w with
  | (w, Except.ok _) => (w, Except.ok ())
  | (w, Except.error _) => (w, Except.ok ())

/-! ### Single-container installation (source lines 203-234) -/

/-- JavaScript template interpolation of a possibly-undefined value. -/
def jsShow (o : Option String) : String :=
  match o with
  | some s => s
  | none => "undefined"

/-- installDockerService: copy the example env over the working env
when the config names one, merge root and local env into the temp
file, copy the temp file over the working env, build the image, run
the container, restore the working env from the example file, delete
the temp file. -/
def installDockerService (ext : String → Bool) (config : SolutionConfig)
    (repoPath : String) (w : World) : StepResult Unit :=
  let start : StepResult Unit :=
    match config.envFile with
    | some envFile => runCp (repoPath ++ "/" ++ envFile) (repoPath ++ "/.env") w
    | none => (w, Except.ok ())
  sbind start fun w =>
  let localEnvPath := repoPath ++ "/.env"
  let tempEnvPath := repoPath ++ "/.env.temp"
  let w := mergeEnvStep "/workspace/.env" localEnvPath tempEnvPath w
  sbind (runCp tempEnvPath localEnvPath w) fun w =>
  sbind (runExt ext ("docker build -t " ++ config.imageName ++ " " ++ repoPath) w) fun w =>
  sbind (runExt ext
    ("docker run -d --name " ++ config.containerName ++ " --network weam_app-network -p " ++
      toString config.port ++ ":" ++ toString config.port ++ " " ++ config.imageName) w) fun w =>
  sbind (runCp (repoPath ++ "/" ++ jsShow config.envFile) (repoPath ++ "/.env") w) fun w =>
  runRmF tempEnvPath w

/-! ### Multi-container installation (source lines 109-135 and 242-287) -/

/-- isDockerComposeAvailable: probe two command variants, each failure
caught, returning whether either succeeded. -/
def isDockerComposeAvailable (ext : String → Bool) (w : World) : World × Bool :=
  match runExt ext "docker-compose --version" w with
  | (w, Except.ok _) => (w, true)
  | (w, Except.error _) =>
    match runExt ext "docker compose version" w with
    | (w, Except.ok _) => (w, true)
    | (w, Except.error _) => (w, false)

/-- The wget command of installDockerCompose. -/
def installComposeCmd : String :=
  "wget -O /usr/local/bin/docker-compose \"https://github.com/docker/compose/releases/download/v2.20.2/docker-compose-$(uname -s)-$(uname -m)\" && chmod +x /usr/local/bin/docker-compose"

/-- installDockerCompose: attempt the download, tolerating failure. -/
def installDockerCompose (ext : String → Bool) (w : World) : World :=
  (runExt ext installComposeCmd w).1

/-- The find command of source lines 246 and 276 that copies every
example env file over its sibling working env file. -/
def bulkCpCmd (repoPath : String) : String :=
  "find " ++ repoPath ++
    " -name \".env.example\" -exec sh -c \x27cp \"$1\" \"$(dirname \"$1\")/.env\"\x27 _ \x7b\x7d \\;"

/-- Whether a path is matched by that find command: it lies strictly
under the repository directory and its basename is .env.example. -/
def isExamplePath (repoPath p : String) : Bool :=
  (repoPath ++ "/").data.isPrefixOf p.data && ("/.env.example").data.isSuffixOf p.data

/-- The sibling working-env path of an example file: the final
.env.example component (12 characters) replaced by .env. -/
def exampleSibling (p : String) : String :=
  ⟨p.data.take (p.data.length - 12) ++ (".env").data⟩

/-- Filesystem effect of the bulk copy: every matched example file is
copied over its sibling .env. -/
def bulkCopyExamples (repoPath : String) (fs : FS) : FS :=
  fs.foldl
    (fun acc e => if isExamplePath repoPath e.1 then fsWrite acc (exampleSibling e.1) e.2 else acc)
    fs

/-- The bulk copy as a traced step; find exits with code 0. -/
def runBulkCopy (repoPath : String) (w : World) : StepResult Unit :=
  let w := logCmd w (bulkCpCmd repoPath)
  ({ w with fs := bulkCopyExamples repoPath w.fs }, Except.ok ())

/-- The three outcomes of the strategy case analysis of source lines
259-286. -/
inductive StrategyChoice where
  | composePath (composeFile : Option String)
  | singleContainer
  | noConfig
  deriving DecidableEq, Repr

/-- The branch condition of source lines 259-286 as a function of the
detected structure: compose when a compose descriptor exists, the
single-container fallback when only a Dockerfile exists, otherwise the
no-configuration error. -/
def selectStrategy (s : RepoStructure) : StrategyChoice :=
  if s.hasDockerCompose then StrategyChoice.composePath s.composeFile
  else if s.hasDockerfile then StrategyChoice.singleContainer
  else StrategyChoice.noConfig

/-- installDockerComposeService: bulk-reset the env files, merge into
the temp file, detect the repository structure, then run the branch
selected by the case analysis.  The returned value records which
branch ran. -/
def installDockerComposeService (ext : String → Bool) (config : SolutionConfig)
    (repoPath : String) (w : World) : StepResult StrategyChoice :=
  sbind (runBulkCopy repoPath w) fun w =>
  let localEnvPath := repoPath ++ "/.env"
  let tempEnvPath := repoPath ++ "/.env.temp"
  let w := mergeEnvStep "/workspace/.env" localEnvPath tempEnvPath w
  let repoStructure :=
    detectRepoStructure fun f => (fsRead w.fs (repoPath ++ "/" ++ f)).isSome
  if repoStructure.hasDockerCompose then
    let wa := isDockerComposeAvailable ext w
    let w := if wa.2 then wa.1 else installDockerCompose ext wa.1
    sbind (runCp tempEnvPath localEnvPath w) fun w =>
    sbind (runExt ext ("cd " ++ repoPath ++ " && docker-compose up -d --build") w) fun w =>
    sbind (runBulkCopy repoPath w) fun w =>
    sbind (runRmF tempEnvPath w) fun w =>
    (w, Except.ok (StrategyChoice.composePath repoStructure.composeFile))
  else if repoStructure.hasDockerfile then
    match installDockerService ext config repoPath w with
    | (w, Except.ok _) => (w, Except.ok StrategyChoice.singleContainer)
    | (w, Except.error e) => (w, Except.error e)
  else
    (w, Except.error "No Docker configuration found in repository")

/-! ### Orchestrator (source lines 293-339) -/

/-- The record returned on success. -/
structure DeploymentResult where
  success : Bool
  port : Nat
  solutionType : String
  deriving DecidableEq, Repr

/-- installWithProgress: validate the requested solution type, remove
any prior checkout, clone, clean up containers, run the strategy
selected by installType.  The catch block logs and re-raises, so the
error outcome is unchanged. -/
def installWithProgress (ext : String → Bool)
    (configs : String → Option SolutionConfig) (solutionType : Option String)
    (w : World) : StepResult DeploymentResult :=
  match solutionType with
  | none => (w, Except.error "Solution type is required")
  | some st =>
    match configs st with
    | none => (w, Except.error ("Unknown solution type: " ++ st))
    | some config =>
      let repoPath := "/workspace/" ++ config.repoName
      sbind (runRmRf repoPath w) fun w =>
      sbind (runExt ext
        ("git clone -b " ++ config.branchName ++ " " ++ config.repoUrl ++ " " ++ repoPath) w)
        fun w =>
      sbind (cleanupExistingContainers ext config w) fun w =>
      let step : StepResult Unit :=
        if config.installType = "docker" then
          installDockerService ext config repoPath w
        else if config.installType = "docker-compose" then
          match installDockerComposeService ext config repoPath w with
          | (w, Except.ok _) => (w, Except.ok ())
          | (w, Except.error e) => (w, Except.error e)
        else (w, Except.error ("Unsupported installation type: " ++ config.installType))
      match step with
      | (w, Except.ok _) =>
        (w, Except.ok { success := true, port := config.port, solutionType := st })
      | (w, Except.error e) => (w, Except.error e)

/-! ### Basic lemmas about the filesystem model -/

theorem fsRead_cons (e : String × String) (fs : FS) (q : String) :
    fsRead (e :: fs) q = if e.1 = q then some e.2 else fsRead fs q := by
  by_cases h : e.1 = q <;> simp [fsRead, List.find?_cons, h]

theorem fsRead_fsErase (fs : FS) (p q : String) :
    fsRead (fsErase fs p) q = if q = p then none else fsRead fs q := by
  induction fs with
  | nil => by_cases h : q = p <;> simp [fsErase, fsRead, h]
  | cons e fs ih =>
    by_cases he : e.1 = p
    · have h1 : fsErase (e :: fs) p = fsErase fs p := by
        simp [fsErase, List.filter_cons, he]
      rw [h1, ih]
      by_cases h : q = p
      · simp [h]
      · rw [if_neg h, if_neg h, fsRead_cons, if_neg fun hq => h (hq.symm.trans he)]
    · have h1 : fsErase (e :: fs) p = e :: fsErase fs p := by
        simp [fsErase, List.filter_cons, he]
      rw [h1, fsRead_cons, fsRead_cons, ih]
      by_cases hq : e.1 = q
      · rw [if_pos hq, if_neg fun hp => he (hq.trans hp), if_pos hq]
      · rw [if_neg hq]
        by_cases h : q = p <;> simp [h, hq]

theorem fsRead_fsWrite (fs : FS) (p c q : String) :
    fsRead (fsWrite fs p c) q = if q = p then some c else fsRead fs q := by
  rw [fsWrite, fsRead_cons, fsRead_fsErase]
  by_cases h : q = p
  · simp [h]
  · rw [if_neg fun hp : p = q => h hp.symm, if_neg h, if_neg h]

/-! ### Claim C3: the merge never mutates its input files -/

/-- C3: mergeEnvironmentFiles never mutates either input source: when
the output path differs from the two source paths, the contents of the
root source file and of the local source file are unchanged after the
merge, and every path other than the output path is unchanged — the
merged result is written only to the output path. -/
theorem c3_merge_never_mutates_sources (fs : FS)
    (rootEnvPath localEnvPath outputPath : String)
    (h1 : rootEnvPath ≠ outputPath) (h2 : localEnvPath ≠ outputPath) :
    fsRead (mergeEnvironmentFiles fs rootEnvPath localEnvPath outputPath).1 rootEnvPath =
      fsRead fs rootEnvPath ∧
    fsRead (mergeEnvironmentFiles fs rootEnvPath localEnvPath outputPath).1 localEnvPath =
      fsRead fs localEnvPath ∧
    ∀ p, p ≠ outputPath →
      fsRead (mergeEnvironmentFiles fs rootEnvPath localEnvPath outputPath).1 p =
        fsRead fs p := by
  have frame : ∀ p, p ≠ outputPath →
      fsRead (mergeEnvironmentFiles fs rootEnvPath localEnvPath outputPath).1 p =
        fsRead fs p := by
    intro p hp
    show fsRead (fsWrite fs outputPath _) p = fsRead fs p
    rw [fsRead_fsWrite, if_neg hp]
  exact ⟨frame rootEnvPath h1, frame localEnvPath h2, frame⟩

/-- C3 witness at a concrete filesystem. -/
theorem c3_merge_never_mutates_sources_witness :
    fsRead (mergeEnvironmentFiles [("/workspace/.env", "A=1"), ("/r/.env", "B=2")]
        "/workspace/.env" "/r/.env" "/r/.env.temp").1 "/workspace/.env" = some "A=1" ∧
    fsRead (mergeEnvironmentFiles [("/workspace/.env", "A=1"), ("/r/.env", "B=2")]
        "/workspace/.env" "/r/.env" "/r/.env.temp").1 "/r/.env" = some "B=2" := by
  have h := c3_merge_never_mutates_sources
    [("/workspace/.env", "A=1"), ("/r/.env", "B=2")]
    "/workspace/.env" "/r/.env" "/r/.env.temp" (by decide) (by decide)
  exact ⟨h.1.trans (by decide), h.2.1.trans (by decide)⟩

/-! ### Claim C7: container cleanup never raises -/

/-- C7: cleanupExistingContainers completes without throwing for every
configuration, every world and every behaviour of the underlying
commands (the oracle may fail any of them): the catch block swallows
every error of the body. -/
theorem c7_cleanup_never_raises (ext : String → Bool) (config : SolutionConfig)
    (w : World) : (cleanupExistingContainers ext config w).2 = Except.ok () := by
  rcases h : cleanupBody ext config w with ⟨w1, r⟩
  cases r <;> simp [cleanupExistingContainers, h]

/-! ### Claim C9: runCommand resolution and rejection -/

/-- C9 counterexample: the rejection produced for a nonzero exit does
not carry the exit code — exit codes 1 and 2 of the same command
produce the identical error value, whose message names only the
command. -/
theorem c9_error_lacks_exit_code :
    runCommand "ls" (ProcessOutcome.closed (some 1)) = Except.error "Command failed: ls" ∧
    runCommand "ls" (ProcessOutcome.closed (some 2)) = Except.error "Command failed: ls" :=
  ⟨rfl, rfl⟩

/-- C9 (amended): runCommand resolves (with "success") exactly when the
process exits with code 0; on any other close event it rejects with an
error carrying only the command in its message; if the process could
not start it rejects with the spawn error. -/
theorem c9_runCommand_spec (command : String) (outcome : ProcessOutcome) :
    (runCommand command outcome = Except.ok "success" ↔
      outcome = ProcessOutcome.closed (some 0)) ∧
    (∀ code, code ≠ some 0 →
      runCommand command (ProcessOutcome.closed code) =
        Except.error ("Command failed: " ++ command)) ∧
    (∀ message, runCommand command (ProcessOutcome.spawnFailure message) =
      Except.error message) := by
  refine ⟨?_, fun code h => by simp [runCommand, h], fun _ => rfl⟩
  cases outcome with
  | closed code => by_cases h : code = some 0 <;> simp [runCommand, h]
  | spawnFailure m => simp [runCommand]

/-- C9 witness at a concrete command and exit code. -/
theorem c9_runCommand_spec_witness :
    runCommand "git clone x" (ProcessOutcome.closed (some 128)) =
      Except.error "Command failed: git clone x" :=
  (c9_runCommand_spec "git clone x" (ProcessOutcome.closed (some 128))).2.1
    (some 128) (by decide)

/-! ### Claim C8: validation precedes every external command -/

/-- C8: when the solution type is missing or unknown, installWithProgress
raises the configuration error and the world is unchanged — in
particular no command has been attempted (the trace is untouched), so
neither the repository removal nor the clone ran. -/
theorem c8_validation_before_commands (ext : String → Bool)
    (configs : String → Option SolutionConfig) (solutionType : Option String) (w : World)
    (h : solutionType = none ∨ ∃ t, solutionType = some t ∧ configs t = none) :
    (installWithProgress ext configs solutionType w).1 = w ∧
    ((installWithProgress ext configs solutionType w).2 =
        Except.error "Solution type is required" ∨
      ∃ t, solutionType = some t ∧
        (installWithProgress ext configs solutionType w).2 =
          Except.error ("Unknown solution type: " ++ t)) := by
  rcases h with h | ⟨t, ht, hc⟩
  · subst h
    exact ⟨rfl, Or.inl rfl⟩
  · subst ht
    exact ⟨by simp [installWithProgress, hc], Or.inr ⟨t, rfl, by simp [installWithProgress, hc]⟩⟩

/-- C8 witness: an unknown solution type. -/
theorem c8_validation_before_commands_witness :
    (installWithProgress (fun _ => true) (fun _ => none) (some "weam")
      { fs := [], trace := [] }).1 = { fs := [], trace := [] } ∧
    (installWithProgress (fun _ => true) (fun _ => none) (some "weam")
      { fs := [], trace := [] }).2 = Except.error ("Unknown solution type: " ++ "weam") := by
  have h := c8_validation_before_commands (fun _ => true) (fun _ => none) (some "weam")
    { fs := [], trace := [] } (Or.inr ⟨"weam", rfl, rfl⟩)
  exact ⟨h.1, rfl⟩

/-! ### Claim C4: repository-structure detection -/

theorem detectComposeLoop_eq (ex : String → Bool) (files : List String) (s : RepoStructure) :
    detectComposeLoop ex files s =
      match files.find? ex with
      | some f => { s with hasDockerCompose := true, composeFile := some f }
      | none => s := by
  induction files with
  | nil => rfl
  | cons f rest ih =>
    by_cases h : ex f
    · simp [detectComposeLoop, h, List.find?_cons_of_pos _ h]
    · rw [List.find?_cons_of_neg _ (by simp [h])]
      simp [detectComposeLoop, h, ih]

theorem detectRepoStructure_eq (ex : String → Bool) :
    (detectRepoStructure ex).composeFile = composeFileNames.find? ex ∧
    (detectRepoStructure ex).hasDockerCompose = (composeFileNames.find? ex).isSome ∧
    (detectRepoStructure ex).hasDockerfile = ex "Dockerfile" := by
  rw [detectRepoStructure]
  simp only [detectComposeLoop_eq]
  rcases h : composeFileNames.find? ex with _ | f <;>
    by_cases hd : ex "Dockerfile" <;> simp [h, hd]

theorem find?_eq_some_of_unique (ex : String → Bool) (files : List String) (f : String)
    (hmem : f ∈ files) (hf : ex f = true)
    (hother : ∀ g ∈ files, g ≠ f → ex g = false) :
    files.find? ex = some f := by
  induction files with
  | nil => cases hmem
  | cons g rest ih =>
    by_cases hg : g = f
    · subst hg
      exact List.find?_cons_of_pos _ hf
    · rw [List.find?_cons_of_neg _ (by simp [hother g (List.mem_cons_self g rest) hg])]
      exact ih ((List.mem_cons.mp hmem).resolve_left fun h => hg h.symm)
        fun g hgm hgf => hother g (List.mem_cons_of_mem _ hgm) hgf

/-- C4: detection checks the four canonical compose filenames in fixed
priority order and records the first one present (the composeFile field
is the first existing candidate and hasDockerCompose its presence);
when exactly one of the four is present, that filename is recorded with
hasDockerCompose true; when none is present, hasDockerCompose is false
and no filename is recorded. -/
theorem c4_detect_repo_structure (ex : String → Bool) :
    ((detectRepoStructure ex).composeFile = composeFileNames.find? ex ∧
      (detectRepoStructure ex).hasDockerCompose = (composeFileNames.find? ex).isSome) ∧
    (∀ f ∈ composeFileNames, ex f = true →
      (∀ g ∈ composeFileNames, g ≠ f → ex g = false) →
        (detectRepoStructure ex).hasDockerCompose = true ∧
        (detectRepoStructure ex).composeFile = some f) ∧
    ((∀ f ∈ composeFileNames, ex f = false) →
      (detectRepoStructure ex).hasDockerCompose = false ∧
      (detectRepoStructure ex).composeFile = none) := by
  obtain ⟨h1, h2, _⟩ := detectRepoStructure_eq ex
  refine ⟨⟨h1, h2⟩, ?_, ?_⟩
  · intro f hmem hf hother
    rw [h1, h2, find?_eq_some_of_unique ex composeFileNames f hmem hf hother]
    exact ⟨rfl, rfl⟩
  · intro hnone
    have : composeFileNames.find? ex = none :=
      List.find?_eq_none.mpr fun f hmem => by simp [hnone f hmem]
    rw [h1, h2, this]
    exact ⟨rfl, rfl⟩

/-- C4 witness: only compose.yml present. -/
theorem c4_detect_repo_structure_witness :
    (detectRepoStructure (fun f => f == "compose.yml")).hasDockerCompose = true ∧
    (detectRepoStructure (fun f => f == "compose.yml")).composeFile = some "compose.yml" :=
  (c4_detect_repo_structure (fun f => f == "compose.yml")).2.1 "compose.yml"
    (by decide) (by decide) (fun g _ hg => by
      cases hgc : (g == "compose.yml") with
      | false => rfl
      | true => exact absurd (by exact of_decide_eq_true hgc) hg)

/-! ### Claim C5: strategy selection -/

theorem getLast?_append_str (a b : String) (h : b.data ≠ []) :
    (a ++ b).data.getLast? = b.data.getLast? := by
  rw [String.data_append]
  exact List.getLast?_append_of_ne_nil _ h

theorem ne_of_getLast?_ne {p q : String} (h : p.data.getLast? ≠ q.data.getLast?) :
    p ≠ q :=
  fun he => h (by rw [he])

theorem exampleSibling_last (q : String) : (exampleSibling q).data.getLast? = some 'v' := by
  show (q.data.take (q.data.length - 12) ++ (".env").data).getLast? = some 'v'
  rw [List.getLast?_append_of_ne_nil _ (by decide)]
  rfl

theorem compose_path_last (rp f : String) (hf : f ∈ composeFileNames) :
    (rp ++ "/" ++ f).data.getLast? = some 'l' := by
  fin_cases hf <;> · rw [getLast?_append_str _ _ (by decide)]; rfl

theorem dockerfile_path_last (rp : String) :
    (rp ++ "/" ++ "Dockerfile").data.getLast? = some 'e' := by
  rw [getLast?_append_str _ _ (by decide)]; rfl

theorem temp_path_last (rp : String) :
    (rp ++ "/.env.temp").data.getLast? = some 'p' := by
  rw [getLast?_append_str _ _ (by decide)]; rfl

theorem env_path_last (rp : String) :
    (rp ++ "/.env").data.getLast? = some 'v' := by
  rw [getLast?_append_str _ _ (by decide)]; rfl

/-- The bulk example copy writes only paths ending in the character v
(the siblings end in ".env"), so a path with a different final
character reads unchanged. -/
theorem fsRead_bulkCopy_of_last_ne (rp : String) (fs : FS) (p : String)
    (h : p.data.getLast? ≠ some 'v') :
    fsRead (bulkCopyExamples rp fs) p = fsRead fs p := by
  have key : ∀ (es : List (String × String)) (acc : FS),
      fsRead (es.foldl (fun acc e =>
        if isExamplePath rp e.1 then fsWrite acc (exampleSibling e.1) e.2 else acc) acc) p =
        fsRead acc p := by
    intro es
    induction es with
    | nil => intro acc; rfl
    | cons e es ih =>
      intro acc
      rw [List.foldl_cons, ih]
      by_cases he : isExamplePath rp e.1
      · rw [if_pos he, fsRead_fsWrite, if_neg]
        intro hp
        exact h (by rw [hp, exampleSibling_last])
      · rw [if_neg he]
  exact key fs fs

/-- The merge step writes only the output path. -/
theorem fsRead_mergeEnvStep_ne (r l o p : String) (w : World) (h : p ≠ o) :
    fsRead (mergeEnvStep r l o w).fs p = fsRead w.fs p := by
  show fsRead (fsWrite w.fs o _) p = fsRead w.fs p
  rw [fsRead_fsWrite, if_neg h]

/-- C5: strategy selection is a total case analysis on the detected
repository structure.  (1) When any compose descriptor exists, the
compose path is chosen (whatever the Dockerfile situation).  (2) When
none exists but a Dockerfile does, the single-container path is chosen.
(3) When neither exists, the no-configuration outcome is chosen.
(4) The selection always lands in exactly one of the three outcome
shapes.  (5) On the full install function, when the repository has no
compose descriptor and no Dockerfile, the run fails with the
no-deployable-configuration error. -/
theorem c5_strategy_selection :
    (∀ ex : String → Bool, (∃ f ∈ composeFileNames, ex f = true) →
      ∃ f, f ∈ composeFileNames ∧ ex f = true ∧
        selectStrategy (detectRepoStructure ex) = StrategyChoice.composePath (some f)) ∧
    (∀ ex : String → Bool, (∀ f ∈ composeFileNames, ex f = false) →
      ex "Dockerfile" = true →
      selectStrategy (detectRepoStructure ex) = StrategyChoice.singleContainer) ∧
    (∀ ex : String → Bool, (∀ f ∈ composeFileNames, ex f = false) →
      ex "Dockerfile" = false →
      selectStrategy (detectRepoStructure ex) = StrategyChoice.noConfig) ∧
    (∀ s : RepoStructure,
      (∃ cf, selectStrategy s = StrategyChoice.composePath cf) ∨
      selectStrategy s = StrategyChoice.singleContainer ∨
      selectStrategy s = StrategyChoice.noConfig) ∧
    (∀ (ext : String → Bool) (config : SolutionConfig) (repoPath : String) (w : World),
      (∀ f ∈ composeFileNames, fsRead w.fs (repoPath ++ "/" ++ f) = none) →
      fsRead w.fs (repoPath ++ "/" ++ "Dockerfile") = none →
      (installDockerComposeService ext config repoPath w).2 =
        Except.error "No Docker configuration found in repository") := by
  refine ⟨?_, ?_, ?_, ?_, ?_⟩
  · intro ex hex
    obtain ⟨h1, h2, _⟩ := detectRepoStructure_eq ex
    rcases hfind : composeFileNames.find? ex with _ | g
    · obtain ⟨f, hmem, hf⟩ := hex
      exact absurd hf (by simpa using List.find?_eq_none.mp hfind f hmem)
    · refine ⟨g, List.mem_of_find?_eq_some hfind, List.find?_some hfind, ?_⟩
      rw [selectStrategy, h1, hfind, if_pos (by rw [h2, hfind]; rfl)]
  · intro ex hnone hd
    obtain ⟨h1, h2, h3⟩ := detectRepoStructure_eq ex
    have hfind : composeFileNames.find? ex = none :=
      List.find?_eq_none.mpr fun f hmem => by simp [hnone f hmem]
    rw [selectStrategy, if_neg (by rw [h2, hfind]; exact Bool.false_ne_true),
      if_pos (by rw [h3, hd])]
  · intro ex hnone hd
    obtain ⟨h1, h2, h3⟩ := detectRepoStructure_eq ex
    have hfind : composeFileNames.find? ex = none :=
      List.find?_eq_none.mpr fun f hmem => by simp [hnone f hmem]
    rw [selectStrategy, if_neg (by rw [h2, hfind]; exact Bool.false_ne_true),
      if_neg (by rw [h3, hd]; exact Bool.false_ne_true)]
  · intro s
    rw [selectStrategy]
    by_cases h1 : s.hasDockerCompose
    · exact Or.inl ⟨s.composeFile, by rw [if_pos h1]⟩
    · by_cases h2 : s.hasDockerfile
      · exact Or.inr (Or.inl (by rw [if_neg h1, if_pos h2]))
      · exact Or.inr (Or.inr (by rw [if_neg h1, if_neg h2]))
  · intro ext config repoPath w hcompose hdocker
    have hbulk : runBulkCopy repoPath w =
        ({ fs := bulkCopyExamples repoPath w.fs, trace := w.trace ++ [bulkCpCmd repoPath] },
          Except.ok ()) := rfl
    set w1 : World :=
      { fs := bulkCopyExamples repoPath w.fs, trace := w.trace ++ [bulkCpCmd repoPath] } with hw1
    set w2 : World :=
      mergeEnvStep "/workspace/.env" (repoPath ++ "/.env") (repoPath ++ "/.env.temp") w1 with hw2
    have hreadC : ∀ f ∈ composeFileNames,
        (fsRead w2.fs (repoPath ++ "/" ++ f)).isSome = false := by
      intro f hf
      rw [hw2, fsRead_mergeEnvStep_ne _ _ _ _ _
          (ne_of_getLast?_ne (by rw [compose_path_last repoPath f hf, temp_path_last]; decide))]
      show (fsRead (bulkCopyExamples repoPath w.fs) _).isSome = false
      rw [fsRead_bulkCopy_of_last_ne _ _ _
          (by rw [compose_path_last repoPath f hf]; decide), hcompose f hf]
      rfl
    have hreadD : (fsRead w2.fs (repoPath ++ "/" ++ "Dockerfile")).isSome = false := by
      rw [hw2, fsRead_mergeEnvStep_ne _ _ _ _ _
          (ne_of_getLast?_ne (by rw [dockerfile_path_last, temp_path_last]; decide))]
      show (fsRead (bulkCopyExamples repoPath w.fs) _).isSome = false
      rw [fsRead_bulkCopy_of_last_ne _ _ _ (by rw [dockerfile_path_last]; decide), hdocker]
      rfl
    obtain ⟨g1, g2, g3⟩ :=
      detectRepoStructure_eq fun f => (fsRead w2.fs (repoPath ++ "/" ++ f)).isSome
    have hfind : composeFileNames.find?
        (fun f => (fsRead w2.fs (repoPath ++ "/" ++ f)).isSome) = none :=
      List.find?_eq_none.mpr fun f hmem => by simp [hreadC f hmem]
    rw [installDockerComposeService, hbulk]
    show (if (detectRepoStructure _).hasDockerCompose then _
      else if (detectRepoStructure _).hasDockerfile then _ else _ :
        StepResult StrategyChoice).2 = _
    rw [if_neg (by rw [g2, hfind]; exact Bool.false_ne_true),
      if_neg (by rw [g3, hreadD]; exact Bool.false_ne_true)]

/-- C5 witness: a repository with only a Dockerfile selects the
single-container path, and an empty repository makes the full install
function fail with the no-configuration error. -/
theorem c5_strategy_selection_witness :
    selectStrategy (detectRepoStructure fun f => f == "Dockerfile") =
      StrategyChoice.singleContainer ∧
    (installDockerComposeService (fun _ => true)
      { repoUrl := "u", branchName := "b", repoName := "r", installType := "docker-compose",
        containerName := "c", imageName := "i", port := 3000,
        additionalPorts := none, envFile := none }
      "/workspace/r" { fs := [], trace := [] }).2 =
      Except.error "No Docker configuration found in repository" :=
  ⟨c5_strategy_selection.2.1 (fun f => f == "Dockerfile") (by decide) (by decide),
    c5_strategy_selection.2.2.2.2 (fun _ => true)
      { repoUrl := "u", branchName := "b", repoName := "r", installType := "docker-compose",
        containerName := "c", imageName := "i", port := 3000,
        additionalPorts := none, envFile := none }
      "/workspace/r" { fs := [], trace := [] } (by decide) (by decide)⟩

/-! ### Claim C6: the working env file is restored after a successful
single-container run -/

theorem runCp_pos (src dst : String) (w : World) (c : String)
    (h : fsRead w.fs src = some c) :
    runCp src dst w =
      ({ fs := fsWrite w.fs dst c, trace := w.trace ++ ["cp " ++ src ++ " " ++ dst] },
        Except.ok ()) := by
  simp [runCp, logCmd, h]

theorem runCp_neg (src dst : String) (w : World) (h : fsRead w.fs src = none) :
    runCp src dst w =
      ({ fs := w.fs, trace := w.trace ++ ["cp " ++ src ++ " " ++ dst] },
        Except.error ("Command failed: " ++ ("cp " ++ src ++ " " ++ dst))) := by
  simp [runCp, logCmd, h]

theorem runExt_pos (ext : String → Bool) (cmd : String) (w : World) (h : ext cmd = true) :
    runExt ext cmd w = ({ fs := w.fs, trace := w.trace ++ [cmd] }, Except.ok ()) := by
  simp [runExt, logCmd, h]

theorem runExt_neg (ext : String → Bool) (cmd : String) (w : World) (h : ext cmd = false) :
    runExt ext cmd w =
      ({ fs := w.fs, trace := w.trace ++ [cmd] },
        Except.error ("Command failed: " ++ cmd)) := by
  simp [runExt, logCmd, h]

theorem runRmF_eq (p : String) (w : World) :
    runRmF p w =
      ({ fs := fsErase w.fs p, trace := w.trace ++ ["rm -f " ++ p] }, Except.ok ()) := by
  simp [runRmF, logCmd]

theorem sbind_ok {α : Type} (w : World) (k : World → StepResult α) :
    sbind (w, Except.ok ()) k = k w := rfl

theorem sbind_error {α : Type} (w : World) (e : String) (k : World → StepResult α) :
    sbind (w, Except.error e) k = (w, Except.error e) := rfl

theorem runCp_pos_mk (src dst : String) (fs : FS) (tr : List String) (c : String)
    (h : fsRead fs src = some c) :
    runCp src dst { fs := fs, trace := tr } =
      ({ fs := fsWrite fs dst c, trace := tr ++ ["cp " ++ src ++ " " ++ dst] },
        Except.ok ()) :=
  runCp_pos src dst { fs := fs, trace := tr } c h

theorem runCp_fsWrite_self (src dst : String) (fs : FS) (cm : String) (tr : List String) :
    runCp src dst { fs := fsWrite fs src cm, trace := tr } =
      ({ fs := fsWrite (fsWrite fs src cm) dst cm, trace := tr ++ ["cp " ++ src ++ " " ++ dst] },
        Except.ok ()) := by
  apply runCp_pos
  show fsRead (fsWrite fs src cm) src = some cm
  rw [fsRead_fsWrite, if_pos rfl]

theorem mergeEnvStep_eq (r l o : String) (w : World) :
    mergeEnvStep r l o w =
      { fs := fsWrite w.fs o (renderEntries (jsEntries (mergeVars
          (match fsRead w.fs r with | some c => parseEnvContent c | none => [])
          (match fsRead w.fs l with | some c => parseEnvContent c | none => [])))),
        trace := w.trace } :=
  rfl

/-- C6: after every successful single-container installation run whose
configuration designates an example-env file (a path distinct from the
working env path and from the temp path), the working .env contains
exactly the example file's original content and the temporary merge
file is gone. -/
theorem c6_env_restored_after_success (ext : String → Bool) (config : SolutionConfig)
    (repoPath : String) (w w' : World) (e : String)
    (henv : config.envFile = some e)
    (h1 : repoPath ++ "/" ++ e ≠ repoPath ++ "/.env")
    (h2 : repoPath ++ "/" ++ e ≠ repoPath ++ "/.env.temp")
    (hrun : installDockerService ext config repoPath w = (w', Except.ok ())) :
    fsRead w'.fs (repoPath ++ "/.env") = fsRead w.fs (repoPath ++ "/" ++ e) ∧
    fsRead w'.fs (repoPath ++ "/.env.temp") = none := by
  have henvtemp : (repoPath ++ "/.env" : String) ≠ repoPath ++ "/.env.temp" :=
    ne_of_getLast?_ne (by rw [env_path_last, temp_path_last]; decide)
  rw [installDockerService, henv] at hrun
  simp only [jsShow] at hrun
  rcases hcp1 : fsRead w.fs (repoPath ++ "/" ++ e) with _ | c
  · rw [runCp_neg _ _ _ hcp1, sbind_error] at hrun
    exact absurd (congrArg Prod.snd hrun) (by simp)
  · simp only [runCp_pos _ _ _ _ hcp1, sbind_ok] at hrun
    set f1 : FS := fsWrite w.fs (repoPath ++ "/.env") c with hf1
    rw [mergeEnvStep_eq] at hrun
    simp only [] at hrun
    set CM : String := renderEntries (jsEntries (mergeVars
      (match fsRead f1 "/workspace/.env" with | some c => parseEnvContent c | none => [])
      (match fsRead f1 (repoPath ++ "/.env") with
        | some c => parseEnvContent c | none => []))) with hCM
    simp only [runCp_fsWrite_self, sbind_ok] at hrun
    cases hx1 : ext ("docker build -t " ++ config.imageName ++ " " ++ repoPath) with
    | false =>
      rw [runExt_neg _ _ _ hx1, sbind_error] at hrun
      exact absurd (congrArg Prod.snd hrun) (by simp)
    | true =>
    simp only [runExt_pos _ _ _ hx1, sbind_ok] at hrun
    cases hx2 : ext ("docker run -d --name " ++ config.containerName ++
        " --network weam_app-network -p " ++ toString config.port ++ ":" ++
        toString config.port ++ " " ++ config.imageName) with
    | false =>
      rw [runExt_neg _ _ _ hx2, sbind_error] at hrun
      exact absurd (congrArg Prod.snd hrun) (by simp)
    | true =>
    simp only [runExt_pos _ _ _ hx2, sbind_ok] at hrun
    have h3 : fsRead (fsWrite (fsWrite f1 (repoPath ++ "/.env.temp") CM)
        (repoPath ++ "/.env") CM) (repoPath ++ "/" ++ e) = some c := by
      rw [fsRead_fsWrite, if_neg h1, fsRead_fsWrite, if_neg h2, hf1,
        fsRead_fsWrite, if_neg h1]
      exact hcp1
    simp only [runCp_pos_mk _ _ _ _ _ h3, sbind_ok] at hrun
    rw [runRmF_eq] at hrun
    obtain rfl : _ = w' := congrArg Prod.fst hrun
    constructor
    · show fsRead (fsErase (fsWrite (fsWrite (fsWrite f1 _ _) _ _) _ _) _) _ = _
      rw [fsRead_fsErase, if_neg henvtemp, fsRead_fsWrite, if_pos rfl]
    · show fsRead (fsErase _ _) _ = _
      rw [fsRead_fsErase, if_pos rfl]

/-- Sample configuration for the concrete run of the C6 witness. -/
def c6Config : SolutionConfig :=
  { repoUrl := "u", branchName := "b", repoName := "r", installType := "docker",
    containerName := "cn", imageName := "im", port := 3000,
    additionalPorts := none, envFile := some ".env.example" }

/-- Initial world of the C6 witness run. -/
def c6World : World :=
  { fs := [("/workspace/r/.env.example", "A=1"), ("/workspace/.env", "B=2")], trace := [] }

/-- C6 witness: a concrete successful run restores the working env file
to the example content and deletes the temp file. -/
theorem c6_env_restored_after_success_witness :
    fsRead (installDockerService (fun _ => true) c6Config "/workspace/r" c6World).1.fs
        ("/workspace/r" ++ "/.env") = some "A=1" ∧
    fsRead (installDockerService (fun _ => true) c6Config "/workspace/r" c6World).1.fs
        ("/workspace/r" ++ "/.env.temp") = none := by
  have h := c6_env_restored_after_success (fun _ => true) c6Config "/workspace/r" c6World
    (installDockerService (fun _ => true) c6Config "/workspace/r" c6World).1 ".env.example"
    rfl (by decide) (by decide) rfl
  exact ⟨h.1.trans (by decide), h.2⟩

/-! ### Lemmas about the JavaScript object model -/

theorem str_ext {s t : String} (h : s.data = t.data) : s = t := by
  cases s; cases t; cases h; rfl

theorem hasOwn_iff (o : EnvObj) (k : String) : hasOwn o k = true ↔ k ∈ keysOf o := by
  rw [hasOwn, List.find?_isSome]
  constructor
  · rintro ⟨p, hp, he⟩
    have hpk : p.1 = k := by simpa using he
    exact hpk ▸ List.mem_map_of_mem Prod.fst hp
  · intro hk
    obtain ⟨p, hp, hpk⟩ := List.mem_map.mp hk
    exact ⟨p, hp, by simp [hpk]⟩

theorem hasOwn_eq_false (o : EnvObj) (k : String) : hasOwn o k = false ↔ k ∉ keysOf o := by
  rw [← hasOwn_iff]
  cases hasOwn o k <;> simp

theorem keysOf_append (a b : EnvObj) : keysOf (a ++ b) = keysOf a ++ keysOf b :=
  List.map_append _ a b

theorem objSet_append (o : EnvObj) (k v : String) (hk : k ∉ keysOf o)
    (hproto : k ≠ "__proto__") : objSet o k v = o ++ [(k, v)] := by
  have h2 : ¬ (hasOwn o k = true) := by rw [hasOwn_iff]; exact hk
  rw [objSet, if_neg hproto, if_neg h2]

theorem foldl_objSet_fresh (g : String → String) :
    ∀ (ks : List String) (m : EnvObj), ks.Nodup → (∀ k ∈ ks, k ∉ keysOf m) →
      "__proto__" ∉ ks →
      ks.foldl (fun m k => objSet m k (g k)) m = m ++ ks.map fun k => (k, g k) := by
  intro ks
  induction ks with
  | nil => intro m _ _ _; simp
  | cons k ks ih =>
    intro m hnd hfresh hproto
    obtain ⟨hknotin, hnd2⟩ := List.nodup_cons.mp hnd
    have hfresh2 : ∀ q ∈ ks, q ∉ keysOf (m ++ [(k, g k)]) := by
      intro q hq hmem
      rw [keysOf_append] at hmem
      rcases List.mem_append.mp hmem with hqm | hqk
      · exact hfresh q (List.mem_cons_of_mem _ hq) hqm
      · have hqk2 : q = k := by simpa [keysOf] using hqk
        exact hknotin (hqk2 ▸ hq)
    rw [List.foldl_cons,
      objSet_append m k (g k) (hfresh k (List.mem_cons_self k ks))
        (fun h => hproto (h ▸ List.mem_cons_self k ks)),
      ih (m ++ [(k, g k)]) hnd2 hfresh2 (fun h => hproto (List.mem_cons_of_mem _ h))]
    simp

theorem foldl_objSet_cond (r : EnvObj) (g : String → String) :
    ∀ (ks : List String) (m : EnvObj), ks.Nodup → "__proto__" ∉ ks →
      (∀ k ∈ ks, hasOwn r k = false → k ∉ keysOf m) →
      ks.foldl (fun m k => if hasOwn r k then m else objSet m k (g k)) m
        = m ++ (ks.filter fun k => !hasOwn r k).map fun k => (k, g k) := by
  intro ks
  induction ks with
  | nil => intro m _ _ _; simp
  | cons k ks ih =>
    intro m hnd hproto hfresh
    obtain ⟨hknotin, hnd2⟩ := List.nodup_cons.mp hnd
    rw [List.foldl_cons, List.filter_cons]
    by_cases hr : hasOwn r k = true
    · rw [if_pos hr,
        ih m hnd2 (fun h => hproto (List.mem_cons_of_mem _ h))
          (fun q hq => hfresh q (List.mem_cons_of_mem _ hq))]
      simp [hr]
    · have hrf : hasOwn r k = false := by
        cases h : hasOwn r k
        · rfl
        · exact absurd h hr
      have hfresh2 : ∀ q ∈ ks, hasOwn r q = false → q ∉ keysOf (m ++ [(k, g k)]) := by
        intro q hq hqr hmem
        rw [keysOf_append] at hmem
        rcases List.mem_append.mp hmem with hqm | hqk
        · exact hfresh q (List.mem_cons_of_mem _ hq) hqr hqm
        · have hqk2 : q = k := by simpa [keysOf] using hqk
          exact hknotin (hqk2 ▸ hq)
      rw [if_neg hr,
        objSet_append m k (g k) (hfresh k (List.mem_cons_self _ _) hrf)
          (fun h => hproto (h ▸ List.mem_cons_self _ _)),
        ih _ hnd2 (fun h => hproto (List.mem_cons_of_mem _ h)) hfresh2]
      simp [hrf]

theorem objGet_cons (q : String × String) (o : EnvObj) (k : String) :
    objGet (q :: o) k = if q.1 = k then q.2 else objGet o k := by
  by_cases h : q.1 = k <;> simp [objGet, List.find?_cons, h]

theorem objGet_of_mem (o : EnvObj) (p : String × String) (hnd : (keysOf o).Nodup)
    (hp : p ∈ o) : objGet o p.1 = p.2 := by
  induction o with
  | nil => cases hp
  | cons q o ih =>
    obtain ⟨hq1, hnd2⟩ := List.nodup_cons.mp hnd
    rw [objGet_cons]
    rcases List.mem_cons.mp hp with rfl | hp2
    · rw [if_pos rfl]
    · rw [if_neg fun h => hq1 (by rw [h]; exact List.mem_map_of_mem Prod.fst hp2)]
      exact ih hnd2 hp2

/-- Object.entries is a permutation of the entry list. -/
theorem jsEntries_perm (o : EnvObj) : (jsEntries o).Perm o := by
  rw [jsEntries]
  refine ((List.perm_insertionSort idxLe _).append
    (List.Perm.refl _)).trans ?_
  exact List.filter_append_perm _ o

theorem keysOf_jsEntries_perm (o : EnvObj) : (keysOf (jsEntries o)).Perm (keysOf o) :=
  (jsEntries_perm o).map Prod.fst

theorem jsKeys_nodup (o : EnvObj) (hnd : (keysOf o).Nodup) : (jsKeys o).Nodup :=
  ((keysOf_jsEntries_perm o).nodup_iff).mpr hnd

theorem mem_jsKeys (o : EnvObj) (k : String) : k ∈ jsKeys o ↔ k ∈ keysOf o :=
  (keysOf_jsEntries_perm o).mem_iff

/-- A filter that excludes every array-index entry passes through
Object.entries unchanged. -/
theorem filter_jsEntries_of_imp (o : EnvObj) (q : String × String → Bool)
    (h : ∀ p, q p = true → isArrayIndex p.1 = false) :
    (jsEntries o).filter q = o.filter q := by
  rw [jsEntries, List.filter_append]
  have h1 : (List.insertionSort idxLe (o.filter fun p => isArrayIndex p.1)).filter q = [] := by
    rw [List.filter_eq_nil_iff]
    intro p hp hq
    have hpi : isArrayIndex p.1 = true :=
      (List.mem_filter.mp ((List.perm_insertionSort idxLe _).subset hp)).2
    rw [h p hq] at hpi
    cases hpi
  have h2 : (o.filter fun p => !isArrayIndex p.1).filter q = o.filter q := by
    rw [List.filter_filter]
    apply List.filter_congr
    intro p _
    cases hq : q p
    · simp
    · simp [h p hq]
  rw [h1, h2, List.nil_append]

theorem filter_idx_jsEntries (o : EnvObj) :
    (jsEntries o).filter (fun p => isArrayIndex p.1)
      = List.insertionSort idxLe (o.filter fun p => isArrayIndex p.1) := by
  rw [jsEntries, List.filter_append]
  have h1 : (List.insertionSort idxLe (o.filter fun p => isArrayIndex p.1)).filter
      (fun p => isArrayIndex p.1)
      = List.insertionSort idxLe (o.filter fun p => isArrayIndex p.1) := by
    rw [List.filter_eq_self]
    intro p hp
    exact (List.mem_filter.mp ((List.perm_insertionSort idxLe _).subset hp)).2
  have h2 : (o.filter fun p => !isArrayIndex p.1).filter (fun p => isArrayIndex p.1) = [] := by
    rw [List.filter_eq_nil_iff]
    intro p hp
    simpa using (List.mem_filter.mp hp).2
  rw [h1, h2, List.append_nil]

theorem jsEntries_idem (o : EnvObj) : jsEntries (jsEntries o) = jsEntries o := by
  conv_lhs => rw [jsEntries]
  rw [filter_idx_jsEntries,
    filter_jsEntries_of_imp o (fun p => !isArrayIndex p.1) (fun p hq => by simpa using hq),
    List.Sorted.insertionSort_eq (List.sorted_insertionSort idxLe _)]
  rfl

/-- The first merge loop copies the root object in Object.keys order. -/
theorem mergeVars_first (r : EnvObj) (hnd : (keysOf r).Nodup)
    (hproto : "__proto__" ∉ keysOf r) :
    (jsKeys r).foldl (fun m k => objSet m k (objGet r k)) [] = jsEntries r := by
  rw [foldl_objSet_fresh (objGet r) (jsKeys r) [] (jsKeys_nodup r hnd)
    (fun k _ h => by cases h) (fun h => hproto ((mem_jsKeys r _).mp h)),
    List.nil_append, jsKeys, keysOf, List.map_map]
  calc (jsEntries r).map ((fun k => (k, objGet r k)) ∘ Prod.fst)
      = (jsEntries r).map id := by
        apply List.map_congr_left
        intro p hp
        have hpr : p ∈ r := (jsEntries_perm r).subset hp
        show (p.1, objGet r p.1) = p
        rw [objGet_of_mem r p hnd hpr]
    _ = jsEntries r := List.map_id _

/-- The merge equals the root entries (in Object.keys order) followed by
the local entries whose key the root does not have (in Object.keys
order of the local object). -/
theorem mergeVars_eq (r l : EnvObj)
    (hndr : (keysOf r).Nodup) (hndl : (keysOf l).Nodup)
    (hpr : "__proto__" ∉ keysOf r) (hpl : "__proto__" ∉ keysOf l) :
    mergeVars r l = jsEntries r ++ (jsEntries l).filter fun p => !hasOwn r p.1 := by
  rw [mergeVars]
  simp only [mergeVars_first r hndr hpr]
  rw [foldl_objSet_cond r (objGet l) (jsKeys l) (jsEntries r) (jsKeys_nodup l hndl)
    (fun h => hpl ((mem_jsKeys l _).mp h)) ?_]
  · congr 1
    rw [jsKeys, keysOf, List.filter_map, List.map_map]
    calc ((jsEntries l).filter ((fun k => !hasOwn r k) ∘ Prod.fst)).map
          ((fun k => (k, objGet l k)) ∘ Prod.fst)
        = ((jsEntries l).filter ((fun k => !hasOwn r k) ∘ Prod.fst)).map id := by
          apply List.map_congr_left
          intro p hp
          have hpl2 : p ∈ l := (jsEntries_perm l).subset (List.mem_filter.mp hp).1
          show (p.1, objGet l p.1) = p
          rw [objGet_of_mem l p hndl hpl2]
      _ = (jsEntries l).filter fun p => !hasOwn r p.1 := List.map_id _
  · intro k hk hkr hmem
    have : k ∈ keysOf r := ((keysOf_jsEntries_perm r).mem_iff).mp hmem
    rw [hasOwn_eq_false] at hkr
    exact hkr this

/-! ### Claim C1: characterization of the merge output -/

/-- C1 counterexample: for the parsed maps of root content "B=b\n0=a"
and an empty local source, the claim mandates the output "B=b\n0=a"
(root keys in the root file's original order); the code writes
"0=a\nB=b" instead, because JavaScript objects order the array-index
key "0" before the string key "B". -/
theorem c1_output_order_counterexample :
    parseEnvContent "B=b\n0=a" = [("B", "b"), ("0", "a")] ∧
    renderEntries [("B", "b"), ("0", "a")] = "B=b\n0=a" ∧
    mergeOutput [("B", "b"), ("0", "a")] [] = "0=a\nB=b" ∧
    mergeOutput [("B", "b"), ("0", "a")] [] ≠ renderEntries [("B", "b"), ("0", "a")] := by
  refine ⟨by decide, by decide, by decide, by decide⟩

/-- C1 (amended): for well-formed parsed maps (keys unique, and no
"__proto__" key — unparseable — nor a root "hasOwnProperty" key, on
which the JavaScript merge would throw), the merge output is the
rendering, as KEY=VALUE lines joined by newline, of an entry list that
(1) consists exactly of every root entry and every local-only entry
(root value winning for shared keys, empty values included), (2) lists
the non-array-index keys in root-first order — root keys in root's
original order, then local-only keys in local's original order — while
(3) all array-index keys (canonical decimal numerals below 2^32 - 1)
come first, (4) in ascending numeric order, per JavaScript
own-property-key ordering. -/
theorem c1_merge_output_characterization (rootVars localVars : EnvObj)
    (hndr : (keysOf rootVars).Nodup) (hndl : (keysOf localVars).Nodup)
    (hpr : "__proto__" ∉ keysOf rootVars) (hpl : "__proto__" ∉ keysOf localVars)
    (_hho : "hasOwnProperty" ∉ keysOf rootVars) :
    ∃ entries : EnvObj,
      mergeOutput rootVars localVars = renderEntries entries ∧
      entries.Perm (rootVars ++ localVars.filter fun p => !hasOwn rootVars p.1) ∧
      entries.filter (fun p => !isArrayIndex p.1)
        = (rootVars.filter fun p => !isArrayIndex p.1)
          ++ (localVars.filter fun p => !hasOwn rootVars p.1).filter
              (fun p => !isArrayIndex p.1) ∧
      entries = entries.filter (fun p => isArrayIndex p.1)
          ++ entries.filter (fun p => !isArrayIndex p.1) ∧
      List.Sorted idxLe (entries.filter fun p => isArrayIndex p.1) := by
  refine ⟨jsEntries (mergeVars rootVars localVars), rfl, ?_, ?_, ?_, ?_⟩
  · refine (jsEntries_perm _).trans ?_
    rw [mergeVars_eq rootVars localVars hndr hndl hpr hpl]
    exact (jsEntries_perm rootVars).append ((jsEntries_perm localVars).filter _)
  · rw [filter_jsEntries_of_imp _ _ (fun p hq => by simpa using hq),
      mergeVars_eq rootVars localVars hndr hndl hpr hpl, List.filter_append,
      filter_jsEntries_of_imp _ _ (fun p hq => by simpa using hq),
      List.filter_filter, List.filter_filter]
    congr 1
    exact filter_jsEntries_of_imp localVars _
      (fun p hq => by
        have h2 := (Bool.and_eq_true _ _).mp hq
        simpa using h2.1)
  · rw [filter_idx_jsEntries, filter_jsEntries_of_imp _ _ (fun p hq => by simpa using hq)]
    rfl
  · rw [filter_idx_jsEntries]
    exact List.sorted_insertionSort idxLe _

/-- C1 witness: spec scenario A plus an empty-value override — root
A=1,B=2 and local B=,C= merge to A=1,B=2,C= with root order kept (no
array-index keys involved). -/
theorem c1_merge_output_characterization_witness :
    mergeOutput [("A", "1"), ("B", "2")] [("B", ""), ("C", "")] = "A=1\nB=2\nC=" ∧
    ∃ entries : EnvObj,
      mergeOutput [("A", "1"), ("B", "2")] [("B", ""), ("C", "")] = renderEntries entries ∧
      entries.Perm ([("A", "1"), ("B", "2")] ++
        [("B", ""), ("C", "")].filter fun p => !hasOwn [("A", "1"), ("B", "2")] p.1) := by
  refine ⟨by decide, ?_⟩
  obtain ⟨entries, h1, h2, _⟩ := c1_merge_output_characterization
    [("A", "1"), ("B", "2")] [("B", ""), ("C", "")]
    (by decide) (by decide) (by decide) (by decide) (by decide)
  exact ⟨entries, h1, h2⟩

/-! ### Round-trip lemmas: parsing a rendered canonical env file -/

/-- A key/value pair whose rendered line survives the parser verbatim:
both parts already trimmed, the key free of separators, comments markers
and the special "__proto__" name, and both parts newline-free. -/
def canonicalEntry (p : String × String) : Prop :=
  jsTrim p.1 = p.1 ∧ jsTrim p.2 = p.2 ∧ ('=' ∉ p.1.data) ∧ ('\n' ∉ p.1.data) ∧
  ('\n' ∉ p.2.data) ∧ startsWithHash p.1 = false ∧ p.1 ≠ "__proto__"

instance : DecidablePred canonicalEntry := fun p => by
  unfold canonicalEntry
  infer_instance

theorem rdropWhile_length_le (p : Char → Bool) (l : List Char) :
    (l.rdropWhile p).length ≤ l.length := by
  rw [List.rdropWhile, List.length_reverse]
  exact le_trans (List.dropWhile_sublist p).length_le (le_of_eq (List.length_reverse l))

theorem trim_parts (l : List Char) (h : trimChars l = l) :
    l.dropWhile jsWhitespace = l ∧ l.rdropWhile jsWhitespace = l := by
  have h1 : (l.dropWhile jsWhitespace).length ≤ l.length :=
    (List.dropWhile_sublist _).length_le
  have h2 : (trimChars l).length ≤ (l.dropWhile jsWhitespace).length :=
    rdropWhile_length_le _ _
  have hlen : (l.dropWhile jsWhitespace).length = l.length := by
    have h3 := congrArg List.length h
    omega
  have hd : l.dropWhile jsWhitespace = l :=
    (List.dropWhile_sublist _).eq_of_length hlen
  refine ⟨hd, ?_⟩
  rw [trimChars, hd] at h
  exact h

theorem not_ws_head (c : Char) (k : List Char)
    (h : (c :: k).dropWhile jsWhitespace = c :: k) : jsWhitespace c = false := by
  cases hb : jsWhitespace c
  · rfl
  · rw [List.dropWhile_cons, hb] at h
    simp only [if_pos] at h
    have h4 := congrArg List.length h
    have hle := (List.dropWhile_sublist (l := k) jsWhitespace).length_le
    simp only [List.length_cons] at h4
    omega

theorem not_ws_last (v : List Char) (hv : v.rdropWhile jsWhitespace = v) (h0 : v ≠ []) :
    ¬ jsWhitespace (v.getLast h0) = true :=
  List.rdropWhile_eq_self_iff.mp hv h0

theorem trimChars_keyval (k v : List Char) (hk : trimChars k = k) (hv : trimChars v = v) :
    trimChars (k ++ '=' :: v) = k ++ '=' :: v := by
  obtain ⟨hk1, _⟩ := trim_parts k hk
  obtain ⟨_, hv2⟩ := trim_parts v hv
  have hd : (k ++ '=' :: v).dropWhile jsWhitespace = k ++ '=' :: v := by
    cases k with
    | nil =>
      rw [List.nil_append, List.dropWhile_cons,
        (by decide : jsWhitespace '=' = false)]
      simp
    | cons c k2 =>
      have hc := not_ws_head c k2 hk1
      rw [List.cons_append, List.dropWhile_cons, hc]
      simp
  have h2 : ∀ c, ('=' :: v).getLast? = some c → jsWhitespace c = false := by
    cases v with
    | nil =>
      intro c hc
      obtain rfl : '=' = c := Option.some.inj hc
      decide
    | cons c2 v2 =>
      intro c hc
      rw [List.getLast?_cons_cons] at hc
      have hne2 : (c2 :: v2) ≠ [] := by simp
      rw [List.getLast?_eq_getLast _ hne2] at hc
      obtain rfl := Option.some.inj hc
      have h3 := not_ws_last (c2 :: v2) hv2 hne2
      cases hb : jsWhitespace ((c2 :: v2).getLast hne2)
      · rfl
      · exact absurd hb h3
  have hr : (k ++ '=' :: v).rdropWhile jsWhitespace = k ++ '=' :: v := by
    rw [List.rdropWhile_eq_self_iff]
    intro hne
    have hsome : ('=' :: v).getLast? = some ((k ++ '=' :: v).getLast hne) := by
      rw [← List.getLast?_append_cons k '=' v]
      exact List.getLast?_eq_getLast _ hne
    rw [h2 _ hsome]
    simp
  rw [trimChars, hd, hr]

theorem mk_data (s : String) : (⟨s.data⟩ : String) = s := rfl

theorem jsTrim_of_trimChars {s : String} (h : trimChars s.data = s.data) :
    jsTrim s = s := by
  rw [jsTrim, h, mk_data]

theorem trimChars_of_jsTrim {s : String} (h : jsTrim s = s) :
    trimChars s.data = s.data := congrArg String.data h

/-- Parsing one rendered canonical line is exactly the object
assignment of its key and value. -/
theorem parseEnvLine_render (vars : EnvObj) (k v : String)
    (hc : canonicalEntry (k, v)) :
    parseEnvLine vars (k ++ "=" ++ v) = objSet vars k v := by
  obtain ⟨hk, hv, hkeq, _, _, hhash, _⟩ := hc
  have hdata : (k ++ "=" ++ v).data = k.data ++ '=' :: v.data := by
    rw [String.data_append, String.data_append]
    simp [show ("=" : String).data = ['='] from rfl]
  have htrim : jsTrim (k ++ "=" ++ v) = k ++ "=" ++ v := by
    apply jsTrim_of_trimChars
    rw [hdata]
    exact trimChars_keyval k.data v.data (trimChars_of_jsTrim hk) (trimChars_of_jsTrim hv)
  have hne : (k ++ "=" ++ v) ≠ "" := by
    intro h0
    have := congrArg String.data h0
    rw [hdata] at this
    simp at this
  have hb1 : ((k ++ "=" ++ v) != "") = true := by simpa using hne
  have hb2 : startsWithHash (k ++ "=" ++ v) = false := by
    cases hk0 : k.data with
    | nil =>
      rw [startsWithHash, hdata, hk0, List.nil_append]
      rfl
    | cons c k2 =>
      rw [startsWithHash, hk0] at hhash
      rw [startsWithHash, hdata, hk0, List.cons_append]
      exact hhash
  have hb3 : includesEq (k ++ "=" ++ v) = true := by
    rw [includesEq, hdata]
    simp
  have hsplit : jsSplit '=' (k ++ "=" ++ v)
      = k :: (v.data.splitOn '=').map (fun l => (⟨l⟩ : String)) := by
    rw [jsSplit, hdata, List.splitOn, List.splitOn,
      List.splitOnP_first _ _ (fun c hc hceq => hkeq (by
        have : c = '=' := by simpa using hceq
        exact this ▸ hc)) '=' (by simp)]
    rw [List.map_cons, mk_data]
  have hjoin : jsJoin '=' ((v.data.splitOn '=').map (fun l => (⟨l⟩ : String))) = v := by
    rw [jsJoin, List.map_map]
    have hmapid : (v.data.splitOn '=').map (String.data ∘ fun l => (⟨l⟩ : String))
        = v.data.splitOn '=' :=
      (List.map_congr_left fun a _ => rfl).trans (List.map_id _)
    rw [hmapid, List.intercalate_splitOn, mk_data]
  rw [parseEnvLine]
  simp only [htrim, hb1, hb2, hb3, hsplit, hjoin]
  rw [if_pos (by simp), hk, hv]

theorem foldl_parseEnvLine_render (l : EnvObj) (hc : ∀ p ∈ l, canonicalEntry p) :
    ∀ m : EnvObj, (l.map fun p => p.1 ++ "=" ++ p.2).foldl parseEnvLine m
      = l.foldl (fun vars p => objSet vars p.1 p.2) m := by
  induction l with
  | nil => intro m; rfl
  | cons p l ih =>
    intro m
    rw [List.map_cons, List.foldl_cons, List.foldl_cons,
      parseEnvLine_render m p.1 p.2 (hc p (List.mem_cons_self _ _))]
    exact ih (fun q hq => hc q (List.mem_cons_of_mem _ hq)) _

theorem foldl_objSet_entries (l : EnvObj) :
    ∀ m : EnvObj, (∀ p ∈ l, p.1 ∉ keysOf m) → (keysOf l).Nodup →
      "__proto__" ∉ keysOf l →
      l.foldl (fun vars p => objSet vars p.1 p.2) m = m ++ l := by
  induction l with
  | nil => intro m _ _ _; simp
  | cons p l ih =>
    intro m hfresh hnd hproto
    have hnd2 : (p.1 :: keysOf l).Nodup := by simpa [keysOf] using hnd
    obtain ⟨hp1, hndl⟩ := List.nodup_cons.mp hnd2
    have hfresh2 : ∀ q ∈ l, q.1 ∉ keysOf (m ++ [(p.1, p.2)]) := by
      intro q hq hmem
      rw [keysOf_append] at hmem
      rcases List.mem_append.mp hmem with hqm | hqk
      · exact hfresh q (List.mem_cons_of_mem _ hq) hqm
      · have hqk2 : q.1 = p.1 := by simpa [keysOf] using hqk
        exact hp1 (hqk2 ▸ List.mem_map_of_mem Prod.fst hq)
    rw [List.foldl_cons,
      objSet_append m p.1 p.2 (hfresh p (List.mem_cons_self _ _))
        (fun h => hproto (by
          rw [keysOf, List.map_cons, h]
          exact List.mem_cons_self _ _)),
      ih (m ++ [(p.1, p.2)]) hfresh2 hndl
        (fun h => hproto (by
          rw [keysOf, List.map_cons]
          exact List.mem_cons_of_mem _ (by simpa [keysOf] using h)))]
    simp

/-- Splitting the rendering of a nonempty entry list on newlines
recovers the rendered lines. -/
theorem jsSplit_renderEntries (p0 : String × String) (l : EnvObj)
    (hc : ∀ p ∈ p0 :: l, canonicalEntry p) :
    jsSplit '\n' (renderEntries (p0 :: l))
      = (p0 :: l).map fun p => p.1 ++ "=" ++ p.2 := by
  have hnonl : ∀ piece ∈ ((p0 :: l).map fun p => p.1 ++ "=" ++ p.2).map String.data,
      '\n' ∉ piece := by
    intro piece hpiece
    obtain ⟨line, hline, rfl⟩ := List.mem_map.mp hpiece
    obtain ⟨p, hp, rfl⟩ := List.mem_map.mp hline
    obtain ⟨_, _, _, hnk, hnv, _, _⟩ := hc p hp
    intro hmem
    rw [String.data_append, String.data_append] at hmem
    rcases List.mem_append.mp hmem with hm1 | hm2
    · rcases List.mem_append.mp hm1 with hm3 | hm4
      · exact hnk hm3
      · simp [show ("=" : String).data = ['='] from rfl] at hm4
    · exact hnv hm2
  rw [jsSplit,
    show (renderEntries (p0 :: l)).data
      = ['\n'].intercalate (((p0 :: l).map fun p => p.1 ++ "=" ++ p.2).map String.data)
      from rfl,
    List.splitOn_intercalate _ '\n' hnonl (by simp), List.map_map]
  exact (List.map_congr_left fun a _ => mk_data a).trans (List.map_id _)

theorem proto_not_mem_of_canonical (l : EnvObj) (hc : ∀ p ∈ l, canonicalEntry p) :
    "__proto__" ∉ keysOf l := by
  intro h
  obtain ⟨p, hp, hpk⟩ := List.mem_map.mp h
  exact (hc p hp).2.2.2.2.2.2 hpk

/-- Parsing the rendering of a duplicate-free canonical entry list
recovers the list itself. -/
theorem parseEnvContent_render (l : EnvObj) (hc : ∀ p ∈ l, canonicalEntry p)
    (hnd : (keysOf l).Nodup) : parseEnvContent (renderEntries l) = l := by
  rcases l with _ | ⟨p0, l2⟩
  · decide
  · rw [parseEnvContent, jsSplit_renderEntries p0 l2 hc,
      foldl_parseEnvLine_render _ hc,
      foldl_objSet_entries _ [] (fun p _ h => by cases h) hnd
        (proto_not_mem_of_canonical _ hc)]
    rfl

/-! ### Well-formedness of every parsed map -/

theorem objSet_wf (o : EnvObj) (k v : String)
    (hnd : (keysOf o).Nodup) (hproto : "__proto__" ∉ keysOf o) :
    (keysOf (objSet o k v)).Nodup ∧ "__proto__" ∉ keysOf (objSet o k v) := by
  rw [objSet]
  by_cases h1 : k = "__proto__"
  · rw [if_pos h1]; exact ⟨hnd, hproto⟩
  · rw [if_neg h1]
    by_cases h2 : hasOwn o k = true
    · rw [if_pos h2]
      have hk : keysOf (o.map fun p => if p.1 = k then (k, v) else p) = keysOf o := by
        rw [keysOf, keysOf, List.map_map]
        exact List.map_congr_left fun p _ => by
          by_cases hp : p.1 = k
          · show (if p.1 = k then (k, v) else p).1 = p.1
            rw [if_pos hp]
            exact hp.symm
          · show (if p.1 = k then (k, v) else p).1 = p.1
            rw [if_neg hp]
      rw [hk]
      exact ⟨hnd, hproto⟩
    · rw [if_neg h2, keysOf_append]
      have hknot : k ∉ keysOf o := (hasOwn_eq_false o k).mp (by
        cases h : hasOwn o k
        · rfl
        · exact absurd h h2)
      constructor
      · rw [List.nodup_append]
        refine ⟨hnd, by simp [keysOf], ?_⟩
        intro a ha hb
        have : a = k := by simpa [keysOf] using hb
        exact hknot (this ▸ ha)
      · intro h
        rcases List.mem_append.mp h with h3 | h4
        · exact hproto h3
        · have : ("__proto__" : String) = k := by simpa [keysOf] using h4
          exact h1 this.symm

theorem parseEnvLine_wf (vars : EnvObj) (line : String)
    (h : (keysOf vars).Nodup ∧ "__proto__" ∉ keysOf vars) :
    (keysOf (parseEnvLine vars line)).Nodup ∧
      "__proto__" ∉ keysOf (parseEnvLine vars line) := by
  rw [parseEnvLine]
  split
  · split
    · exact h
    · exact objSet_wf _ _ _ h.1 h.2
  · exact h

/-- Every parsed environment map is well formed: unique keys and no
"__proto__" key. -/
theorem parseEnvContent_wf (content : String) :
    (keysOf (parseEnvContent content)).Nodup ∧
      "__proto__" ∉ keysOf (parseEnvContent content) := by
  rw [parseEnvContent]
  have key : ∀ (lines : List String) (m : EnvObj),
      (keysOf m).Nodup ∧ "__proto__" ∉ keysOf m →
      (keysOf (lines.foldl parseEnvLine m)).Nodup ∧
        "__proto__" ∉ keysOf (lines.foldl parseEnvLine m) := by
    intro lines
    induction lines with
    | nil => exact fun m h => h
    | cons line lines ih =>
      intro m h
      rw [List.foldl_cons]
      exact ih _ (parseEnvLine_wf m line h)
  exact key _ [] ⟨List.nodup_nil, by simp [keysOf]⟩

theorem mergeVars_nil_left (l : EnvObj) (hndl : (keysOf l).Nodup)
    (hpl : "__proto__" ∉ keysOf l) : mergeVars [] l = jsEntries l := by
  rw [mergeVars_eq [] l (by simp [keysOf]) hndl (by simp [keysOf]) hpl]
  rw [show jsEntries [] = ([] : EnvObj) from rfl, List.nil_append]
  exact List.filter_eq_self.mpr fun p _ => rfl

theorem mergeVars_nil_right (r : EnvObj) (hndr : (keysOf r).Nodup)
    (hpr : "__proto__" ∉ keysOf r) : mergeVars r [] = jsEntries r := by
  rw [mergeVars_eq r [] hndr (by simp [keysOf]) hpr (by simp [keysOf])]
  rw [show jsEntries [] = ([] : EnvObj) from rfl, List.filter_nil, List.append_nil]

theorem mergeEnvironmentFiles_read_out (fs : FS) (r l o : String) :
    fsRead (mergeEnvironmentFiles fs r l o).1 o
      = some (renderEntries (jsEntries (mergeEnvironmentFiles fs r l o).2)) := by
  show fsRead (fsWrite fs o _) o = _
  rw [fsRead_fsWrite, if_pos rfl]
  rfl

/-! ### Claim C2: round trip of an example env file through copy and
merge with an empty root -/

/-- C2 counterexample: an example file containing a comment line does
not survive the round trip even up to key ordering — the copy runs, the
merge with an absent root writes only "A=1", and no reordering of the
output's single line yields the two lines of the example. -/
theorem c2_comment_counterexample :
    (runCp "/r/.env.example" "/r/.env"
      { fs := [("/r/.env.example", "#c\nA=1")], trace := [] }).2 = Except.ok () ∧
    fsRead (mergeEnvironmentFiles
        (runCp "/r/.env.example" "/r/.env"
          { fs := [("/r/.env.example", "#c\nA=1")], trace := [] }).1.fs
        "/workspace/.env" "/r/.env" "/r/.env.temp").1 "/r/.env.temp" = some "A=1" ∧
    ¬ (jsSplit '\n' "A=1").Perm (jsSplit '\n' "#c\nA=1") := by
  refine ⟨rfl, by decide, fun h => absurd h.length_eq (by decide)⟩

/-- C2 (amended): for an example file whose content is the rendering of
a duplicate-free list of canonical entries (lines already in trimmed
KEY=VALUE shape, no blanks, comments, or lines without '='), copying it
over the working env file and merging it as the local source with an
absent root source writes output equal to the example content up to key
ordering: the rendering of the permutation jsEntries l of the entries. -/
theorem c2_roundtrip_upto_ordering (w : World)
    (examplePath workPath outPath rootPath : String) (l : EnvObj)
    (hc : ∀ p ∈ l, canonicalEntry p) (hnd : (keysOf l).Nodup)
    (hex : fsRead w.fs examplePath = some (renderEntries l))
    (hrw : rootPath ≠ workPath)
    (hroot : fsRead w.fs rootPath = none) :
    (runCp examplePath workPath w).2 = Except.ok () ∧
    (jsEntries l).Perm l ∧
    fsRead (mergeEnvironmentFiles (runCp examplePath workPath w).1.fs
        rootPath workPath outPath).1 outPath
      = some (renderEntries (jsEntries l)) := by
  have hcp := runCp_pos examplePath workPath w _ hex
  refine ⟨by rw [hcp], jsEntries_perm l, ?_⟩
  have hfs : (runCp examplePath workPath w).1.fs
      = fsWrite w.fs workPath (renderEntries l) := by
    rw [hcp]
  have hR : fsRead (fsWrite w.fs workPath (renderEntries l)) rootPath = none := by
    rw [fsRead_fsWrite, if_neg hrw]
    exact hroot
  have hL : fsRead (fsWrite w.fs workPath (renderEntries l)) workPath
      = some (renderEntries l) := by
    rw [fsRead_fsWrite, if_pos rfl]
  have h2 : (mergeEnvironmentFiles (fsWrite w.fs workPath (renderEntries l))
      rootPath workPath outPath).2 = jsEntries l := by
    simp only [mergeEnvironmentFiles, hR, hL]
    rw [parseEnvContent_render l hc hnd]
    exact mergeVars_nil_left l hnd (proto_not_mem_of_canonical l hc)
  rw [hfs, mergeEnvironmentFiles_read_out, h2, jsEntries_idem]

/-- C2 witness: a two-entry example file round-trips exactly. -/
theorem c2_roundtrip_upto_ordering_witness :
    (runCp "/r/.env.example" "/r/.env"
      { fs := [("/r/.env.example", "B=2\nA=1")], trace := [] }).2 = Except.ok () ∧
    fsRead (mergeEnvironmentFiles
        (runCp "/r/.env.example" "/r/.env"
          { fs := [("/r/.env.example", "B=2\nA=1")], trace := [] }).1.fs
        "/workspace/.env" "/r/.env" "/r/.env.temp").1 "/r/.env.temp"
      = some "B=2\nA=1" := by
  have h := c2_roundtrip_upto_ordering
    { fs := [("/r/.env.example", "B=2\nA=1")], trace := [] }
    "/r/.env.example" "/r/.env" "/r/.env.temp" "/workspace/.env"
    [("B", "2"), ("A", "1")] (by decide) (by decide) (by decide) (by decide) (by decide)
  exact ⟨h.1, h.2.2.trans (by decide)⟩


/-! ### Claim C10: a missing source file acts as an empty map -/

/-- C10: the merge treats a missing root (respectively local) source as
an empty map and completes (the model of mergeEnvironmentFiles is
total): the merged map consists exactly (up to the JavaScript key
reordering, a permutation) of the entries parsed from the other,
existing source, and the rendered merge is written to the output path;
when neither source exists the merged map and the written output are
empty. -/
theorem c10_missing_source_is_empty (fs : FS) (rootPath localPath outPath : String) :
    (∀ c, fsRead fs rootPath = none → fsRead fs localPath = some c →
      ((mergeEnvironmentFiles fs rootPath localPath outPath).2).Perm
        (parseEnvContent c) ∧
      fsRead (mergeEnvironmentFiles fs rootPath localPath outPath).1 outPath =
        some (renderEntries (mergeEnvironmentFiles fs rootPath localPath outPath).2)) ∧
    (∀ c, fsRead fs localPath = none → fsRead fs rootPath = some c →
      ((mergeEnvironmentFiles fs rootPath localPath outPath).2).Perm
        (parseEnvContent c) ∧
      fsRead (mergeEnvironmentFiles fs rootPath localPath outPath).1 outPath =
        some (renderEntries (mergeEnvironmentFiles fs rootPath localPath outPath).2)) ∧
    (fsRead fs rootPath = none → fsRead fs localPath = none →
      (mergeEnvironmentFiles fs rootPath localPath outPath).2 = [] ∧
      fsRead (mergeEnvironmentFiles fs rootPath localPath outPath).1 outPath
        = some "") := by
  refine ⟨?_, ?_, ?_⟩
  · intro c hR hL
    have h2 : (mergeEnvironmentFiles fs rootPath localPath outPath).2
        = jsEntries (parseEnvContent c) := by
      simp only [mergeEnvironmentFiles, hR, hL]
      exact mergeVars_nil_left _ (parseEnvContent_wf c).1 (parseEnvContent_wf c).2
    refine ⟨?_, ?_⟩
    · rw [h2]
      exact jsEntries_perm _
    · rw [mergeEnvironmentFiles_read_out, h2, jsEntries_idem]
  · intro c hL hR
    have h2 : (mergeEnvironmentFiles fs rootPath localPath outPath).2
        = jsEntries (parseEnvContent c) := by
      simp only [mergeEnvironmentFiles, hR, hL]
      exact mergeVars_nil_right _ (parseEnvContent_wf c).1 (parseEnvContent_wf c).2
    refine ⟨?_, ?_⟩
    · rw [h2]
      exact jsEntries_perm _
    · rw [mergeEnvironmentFiles_read_out, h2, jsEntries_idem]
  · intro hR hL
    have h2 : (mergeEnvironmentFiles fs rootPath localPath outPath).2 = [] := by
      simp only [mergeEnvironmentFiles, hR, hL]
      rfl
    refine ⟨h2, ?_⟩
    rw [mergeEnvironmentFiles_read_out, h2]
    rfl

/-- C10 witness: a present local source and an absent root source. -/
theorem c10_missing_source_is_empty_witness :
    ((mergeEnvironmentFiles [("/r/.env", "A=1")] "/workspace/.env" "/r/.env"
        "/r/.env.temp").2).Perm (parseEnvContent "A=1") ∧
    fsRead (mergeEnvironmentFiles [("/r/.env", "A=1")] "/workspace/.env" "/r/.env"
        "/r/.env.temp").1 "/r/.env.temp" = some "A=1" := by
  have h := (c10_missing_source_is_empty [("/r/.env", "A=1")]
    "/workspace/.env" "/r/.env" "/r/.env.temp").1 "A=1" (by decide) (by decide)
  exact ⟨h.1, h.2.trans (by decide)⟩

end SolutionInstall
